import Mathlib

/-!
Verification of the type-inference engine of roblox-lua-autofills
(`src/utils.ts`, `inferType` and its helpers), shallowly embedded in Lean.

The embedding models:
* the catalog data (`ApiClass` / class members from the API dump,
  `ItemStruct` from the autocomplete dump),
* the alias table `CLASS_ALIASES` and the derived service index
  (`getServices`),
* the chain tokenizer `code.split(/[.:]/)`,
* the resolver loop of `inferType`, with its per-token step split into
  the three source branches (first token, class entity, struct entity).

Machine-level details that matter are kept: JavaScript `find` is a
first-match search, `Map.set` is last-write-wins, the regex
`/(\w+)\(?.*\)?/` captures the first maximal run of word characters,
and indexing `output[output.length - 1]` on an empty array yields
`undefined` whose `.Static` access would throw - the loop therefore
returns an `Option`, with `none` marking that (unreachable) crash.
-/

set_option maxHeartbeats 1000000

/-- `ApiValueType` from the API dump: a category string
("Class" / "DataType" / "Primitive" / "Enum") and a type name. -/
structure ApiValueType where
  Category : String
  Name : String
  deriving DecidableEq, Repr

/-- A class member from the API dump, reduced to the fields `inferType`
reads: the member name, its kind, and (for properties) `ValueType` /
(for functions) `ReturnType`. -/
inductive ApiMember where
  | property (Name : String) (ValueType : ApiValueType)
  | function (Name : String) (ReturnType : ApiValueType)
  | event (Name : String)
  | callback (Name : String)
  deriving DecidableEq, Repr

/-- The `Name` field shared by every member variant. -/
def ApiMember.Name : ApiMember → String
  | .property n _ => n
  | .function n _ => n
  | .event n => n
  | .callback n => n

/-- A class from the API dump: `Name`, `Members`, optional `Tags`. -/
structure ApiClass where
  Name : String
  Members : List ApiMember
  Tags : Option (List String)
  deriving DecidableEq, Repr

/-- A property of an `ItemStruct` from the autocomplete dump. -/
structure StructProperty where
  name : String
  type : String
  static : Bool
  deriving DecidableEq, Repr

/-- One declared return type of a struct function. -/
structure FunctionReturn where
  type : String
  deriving DecidableEq, Repr

/-- A function of an `ItemStruct` from the autocomplete dump.
Parameters are not read by `inferType` and are omitted. -/
structure StructFunction where
  name : String
  static : Bool
  returns : List FunctionReturn
  deriving DecidableEq, Repr

/-- An `ItemStruct` (value-type struct) from the autocomplete dump. -/
structure ItemStruct where
  name : String
  properties : List StructProperty
  functions : List StructFunction
  deriving DecidableEq, Repr

/-- The catalog snapshot `inferType` runs against: `apiDump.Classes`
and `autocompleteDump.ItemStruct`, in dump order. -/
structure Env where
  Classes : List ApiClass
  ItemStruct : List ItemStruct

/-- The engine's output element (`ValueType` in utils.ts): the value
type spread together with `VariableName` (the source token) and the
`Static` context flag. -/
structure ValueType where
  Category : String
  Name : String
  VariableName : String
  Static : Bool
  deriving DecidableEq, Repr

/-- `CLASS_ALIASES` from utils.ts: `game → DataModel`,
`workspace → Workspace`; any other key is absent. -/
def CLASS_ALIASES (v : String) : Option String :=
  if v = "game" then some "DataModel"
  else if v = "workspace" then some "Workspace"
  else none

/-- Does a class carry the "Service" tag
(`klass.Tags !== undefined && klass.Tags.includes("Service")`)? -/
def hasServiceTag (k : ApiClass) : Bool :=
  match k.Tags with
  | some tags => tags.contains "Service"
  | none => false

/-- `getServices` builds a `Map` keyed by class name over the classes
tagged "Service"; `Map.set` is last-write-wins, so `get` returns the
last tagged class with the name. -/
def servicesGet (env : Env) (v : String) : Option ApiClass :=
  ((env.Classes.filter hasServiceTag).reverse).find? (fun k => k.Name == v)

/-- JavaScript word character (`\w` without the unicode flag). -/
def isWordChar (c : Char) : Bool :=
  c.isAlphanum || c == '_'

/-- Capture group 1 of `variable.match(/(\w+)\(?.*\)?/)`: the first
maximal run of word characters, or `none` when the string has no word
character (the regex fails to match). -/
def firstWordRun (s : String) : Option String :=
  match (s.data.dropWhile (fun c => !isWordChar c)).takeWhile isWordChar with
  | [] => none
  | run => some (String.mk run)

/-- Generic single-character splitter with JavaScript `String.split`
semantics: adjacent separators and separators at either end produce
empty fields, and the empty input yields one empty field. -/
def splitBy (p : Char → Bool) : List Char → List (List Char)
  | [] => [[]]
  | c :: cs =>
    match p c, splitBy p cs with
    | true, r => [] :: r
    | false, [] => [[c]]
    | false, t :: ts => (c :: t) :: ts

/-- Chain separator of `code.split(/[.:]/)`. -/
def isSep (c : Char) : Bool :=
  c == '.' || c == ':'

/-- The chain tokenizer: `code.split(/[.:]/)`. -/
def tokenize (code : String) : List String :=
  (splitBy isSep code.data).map String.mk

/-- The resolver's current entity (`lastVariableInfo`): a class from
the API dump or an item struct from the autocomplete dump. The source
discriminates the union with the duck-typed `isVariableClass` check. -/
inductive LastVar where
  | cls (c : ApiClass)
  | strct (s : ItemStruct)
  deriving DecidableEq, Repr

/-- What one loop iteration does with the shifted token:
`stop` is a `break` without a push, `skip` consumes the token without a
push and continues with entity `next` (the Callback fall-through), and
`push x next` appends `x` and either continues with `next` or, when
`next` is `none`, breaks right after the push. -/
inductive Step where
  | stop
  | skip (next : LastVar)
  | push (x : ValueType) (next : Option LastVar)
  deriving DecidableEq, Repr

/-- Resolution of a pushed value type's category: `Class` names are
looked up in `apiDump.Classes`, `DataType` names in
`autocompleteDump.ItemStruct`; a failed lookup or any other category
(primitive, enum) yields `none`, which makes the loop break. -/
def resolveCategory (env : Env) (vt : ApiValueType) : Option LastVar :=
  if vt.Category == "Class" then
    (env.Classes.find? (fun k => k.Name == vt.Name)).map LastVar.cls
  else if vt.Category == "DataType" then
    (env.ItemStruct.find? (fun s => s.name == vt.Name)).map LastVar.strct
  else
    none

/-- The class-entity branch of the loop (utils.ts lines 66-116):
match out the bare member name, find the member, and dispatch on its
kind. A Property or Function pushes its value/return type and descends
via `resolveCategory`; an Event pushes a synthetic `EventInstance`
DataType; a Callback matches the member but falls through both inner
conditionals - no push, no break, same class. A failed name match or
member lookup breaks. -/
def classStep (env : Env) (c : ApiClass) (v : String) : Step :=
  match firstWordRun v with
  | none => .stop
  | some nm =>
    match c.Members.find? (fun m => m.Name == nm) with
    | none => .stop
    | some (.property _ vt) =>
      .push ⟨vt.Category, vt.Name, v, false⟩ (resolveCategory env vt)
    | some (.function _ rt) =>
      .push ⟨rt.Category, rt.Name, v, false⟩ (resolveCategory env rt)
    | some (.event _) =>
      .push ⟨"DataType", "EventInstance", v, false⟩
        ((env.ItemStruct.find? (fun s => s.name == "EventInstance")).map LastVar.strct)
    | some (.callback _) => .skip (.cls c)

/-- Resolution of a struct property's type name or a struct function's
return type name (utils.ts lines 124-148 and 163-187): try the class
catalog, then the struct catalog, else classify as a primitive and
break after the push. -/
def resolveTypeName (env : Env) (v tn : String) : Step :=
  match env.Classes.find? (fun k => k.Name == tn) with
  | some ci => .push ⟨"Class", ci.Name, v, false⟩ (some (.cls ci))
  | none =>
    match env.ItemStruct.find? (fun s => s.name == tn) with
    | some di => .push ⟨"DataType", di.name, v, false⟩ (some (.strct di))
    | none => .push ⟨"Primitive", tn, v, false⟩ none

/-- The struct-entity branch of the loop (utils.ts lines 117-198):
`prev` is `output[output.length - 1]`. Properties are matched on the
raw token and the static context; functions on the matched-out bare
name and the static context, taking only the first declared return
type. Any failed lookup breaks. -/
def structStep (env : Env) (s : ItemStruct) (prev : ValueType) (v : String) : Step :=
  match s.properties.find? (fun p => p.name == v && p.static == prev.Static) with
  | some p => resolveTypeName env v p.type
  | none =>
    match firstWordRun v with
    | none => .stop
    | some fn =>
      match s.functions.find? (fun f => f.name == fn && f.static == prev.Static) with
      | none => .stop
      | some f =>
        match f.returns.head? with
        | none => .stop
        | some r => resolveTypeName env v r.type

/-- The first-token branch of the loop (utils.ts lines 199-235):
alias table (falling through to the next lookup when the aliased class
is missing), then the service index, then the struct catalog - the
struct path is the only push with `Static: true`. The src revision
breaks when all three fail (`TODO: Check for variable assignment`). -/
def firstStep (env : Env) (v : String) : Step :=
  match (CLASS_ALIASES v).bind (fun cn => env.Classes.find? (fun k => k.Name == cn)) with
  | some k => .push ⟨"Class", k.Name, v, false⟩ (some (.cls k))
  | none =>
    match servicesGet env v with
    | some s => .push ⟨"Class", s.Name, v, false⟩ (some (.cls s))
    | none =>
      match env.ItemStruct.find? (fun t => t.name == v) with
      | some t => .push ⟨"DataType", t.name, v, true⟩ (some (.strct t))
      | none => .stop

/-- One-token dispatch of the loop body on `lastVariableInfo`.
In the struct branch the source reads
`output[output.length - 1].Static` before any lookup; on an empty
output that is an access on `undefined`, modelled as `none`. -/
def stepOf (env : Env) (st : Option LastVar) (prev? : Option ValueType) (v : String) :
    Option Step :=
  match st with
  | none => some (firstStep env v)
  | some (.cls c) => some (classStep env c v)
  | some (.strct s) =>
    match prev? with
    | none => none
    | some prev => some (structStep env s prev v)

/-- The `while (codeSplit.length > 0)` loop of `inferType` (src
revision). The result carries the output together with a flag that is
`true` when the loop exited through a `break` and `false` when it
consumed every token; `none` marks the (unreachable) crash of reading
`.Static` off an empty output. -/
def inferLoop (env : Env) : List String → Option LastVar → List ValueType →
    Option (List ValueType × Bool)
  | [], _, out => some (out, false)
  | v :: rest, st, out =>
    match stepOf env st out.getLast? v with
    | none => none
    | some .stop => some (out, true)
    | some (.skip next) => inferLoop env rest (some next) out
    | some (.push x none) => some (out ++ [x], true)
    | some (.push x (some next)) => inferLoop env rest (some next) (out ++ [x])

/-- `inferType` of the src revision: tokenize the chain and run the
loop from no entity and an empty output. (The `document` parameter of
the src revision is never read by its body.) -/
def inferType (env : Env) (code : String) : Option (List ValueType) :=
  (inferLoop env (tokenize code) none []).map Prod.fst

/-- The number of tokens the loop shifts off `codeSplit` before it
terminates. This mirrors `inferLoop` exactly - same `stepOf` dispatch,
same entity and output threading (the output is needed because the
struct branch reads the last element's Static flag) - but accumulates
the count of consumed tokens instead of the output: a break counts the
token consumed in its own iteration, exhaustion counts every token,
and a skipped Callback token is counted like any other shift. -/
def consumedTokens (env : Env) : List String → Option LastVar → List ValueType → Option Nat
  | [], _, _ => some 0
  | v :: rest, st, out =>
    match stepOf env st out.getLast? v with
    | none => none
    | some .stop => some 1
    | some (.skip next) => (consumedTokens env rest (some next) out).map (· + 1)
    | some (.push _ none) => some 1
    | some (.push x (some next)) => (consumedTokens env rest (some next) (out ++ [x])).map (· + 1)

/-!
Spec-modelled part. The repository's current `inferType` takes
`(document, position, code)` - both providers call it that way - but
src/ holds an older revision of utils.ts with a two-argument signature
whose first-token fallback is only `// TODO: Check for variable
assignment` and whose struct-function branch has no constructor
special case. The Assignment Scanner (spec section 4.3) and the
"instantiate by class name" rule (spec section 4.2, struct "Instance",
function "new") are therefore modelled from the spec below.
-/

/-- Modelled from the spec: the "call argument literal matches a
quoted class name" test of the Instance.new rule (the source for this
rule is missing from src/). Returns the literal between the first
double quote and its closing double quote, if both exist. -/
def quotedArg (s : String) : Option String :=
  match s.data.dropWhile (fun c => c != '"') with
  | [] => none
  | _ :: rest =>
    let body := rest.takeWhile (fun c => c != '"')
    if rest.drop body.length = [] then none else some (String.mk body)

/-- Modelled from the spec: match of one document line against the
local-assignment pattern `local <name> = <rhs>` for the exact
identifier `nm`; the scanner source is missing from src/. Leading
whitespace is allowed, at least one space must follow `local`, the
character after the identifier must not be a word character, and the
right-hand side is the rest of the line after `=`. -/
def parseLocalAssign (nm : String) (line : List Char) : Option String :=
  let l := line.dropWhile (fun c => c == ' ' || c == '\t')
  if l.take 5 = "local".data then
    match l.drop 5 with
    | [] => none
    | c :: cs =>
      if c == ' ' || c == '\t' then
        let l2 := cs.dropWhile (fun d => d == ' ' || d == '\t')
        if l2.take nm.length = nm.data then
          let l3 := l2.drop nm.length
          if (l3.head?.map isWordChar).getD false then none
          else
            match l3.dropWhile (fun d => d == ' ' || d == '\t') with
            | '=' :: r => some (String.mk (r.dropWhile (fun d => d == ' ' || d == '\t')))
            | _ => none
        else none
      else none
  else none

/-- Modelled from the spec: the Assignment Scanner's line scan - all
lines of the document text before the reference position are tried
against the local-assignment pattern and the LAST match wins (the
scanner source is missing from src/). -/
def lastLocalAssignment (doc : String) (nm : String) : Option String :=
  (splitBy (fun c => c == '\n') doc.data).foldl
    (fun acc line =>
      match parseLocalAssign nm line with
      | some rhs => some rhs
      | none => acc)
    none

/-- Modelled from the spec: the struct-entity branch of the current
resolver, which is `structStep` extended with the special rule for the
canonical constructor (struct name "Instance", function name "new"):
when the call-argument literal is a quoted class name that exists in
the class catalog, resolve directly to that class instead of the
function's declared return type. The rule's source is missing from
src/. -/
def structStepFull (env : Env) (s : ItemStruct) (prev : ValueType) (v : String) : Step :=
  match s.properties.find? (fun p => p.name == v && p.static == prev.Static) with
  | some p => resolveTypeName env v p.type
  | none =>
    match firstWordRun v with
    | none => .stop
    | some fn =>
      match s.functions.find? (fun f => f.name == fn && f.static == prev.Static) with
      | none => .stop
      | some f =>
        match
          (if s.name == "Instance" && fn == "new" then
            (quotedArg v).bind (fun cn => env.Classes.find? (fun k => k.Name == cn))
          else none) with
        | some ci => .push ⟨"Class", ci.Name, v, false⟩ (some (.cls ci))
        | none =>
          match f.returns.head? with
          | none => .stop
          | some r => resolveTypeName env v r.type

/-- One-token dispatch of the current resolver's loop body: like
`stepOf` but with the Instance.new rule in the struct branch. -/
def stepOfFull (env : Env) (st : Option LastVar) (prev? : Option ValueType) (v : String) :
    Option Step :=
  match st with
  | none => some (firstStep env v)
  | some (.cls c) => some (classStep env c v)
  | some (.strct s) =>
    match prev? with
    | none => none
    | some prev => some (structStepFull env s prev v)

/-- Modelled from the spec: the loop of the current resolver. When the
first token fails the alias, service and struct lookups, the
Assignment Scanner runs: the last matching `local <name> = <rhs>` line
of `doc` is taken, `recurse` (the resolver itself, one fuel level
down) is invoked on the right-hand side, and the last element of its
result is pushed as the first element of the outer output, after which
the loop continues with the remaining tokens while an entity can be
derived from the pushed element's category; if no line matches or the
recursive result is empty, the result is the empty sequence. -/
def inferFullLoop (env : Env) (doc : String)
    (recurse : String → Option (List ValueType × Bool)) :
    List String → Option LastVar → List ValueType → Option (List ValueType × Bool)
  | [], _, out => some (out, false)
  | v :: rest, st, out =>
    match stepOfFull env st out.getLast? v, st with
    | none, _ => none
    | some .stop, some _ => some (out, true)
    | some .stop, none =>
      match lastLocalAssignment doc v with
      | none => some (out, true)
      | some rhs =>
        match recurse rhs with
        | none => none
        | some (types, _) =>
          match types.getLast? with
          | none => some (out, true)
          | some t =>
            match resolveCategory env ⟨t.Category, t.Name⟩ with
            | some next => inferFullLoop env doc recurse rest (some next) (out ++ [t])
            | none => some (out ++ [t], true)
    | some (.skip next), _ => inferFullLoop env doc recurse rest (some next) out
    | some (.push x none), _ => some (out ++ [x], true)
    | some (.push x (some next)), _ => inferFullLoop env doc recurse rest (some next) (out ++ [x])

/-- Modelled from the spec: the current three-argument resolver, with
an explicit recursion-depth fuel for the Assignment Scanner's
recursive invocation (the spec notes the source has no cycle guard for
patterns such as `local x = x`; exhausted fuel is `none`). -/
def inferFull (env : Env) (doc : String) : Nat → String → Option (List ValueType × Bool)
  | 0, _ => none
  | fuel + 1, code => inferFullLoop env doc (inferFull env doc fuel) (tokenize code) none []

/-!
Auxiliary definitions for the statements: a separator-collapsing map
on chain strings, the first-token struct-path condition, and the
concrete catalog snapshots used as counterexamples and witnesses.
-/

/-- The chain with every method-call separator `:` replaced by the
property-access separator `.`. -/
def dotify (s : String) : String :=
  String.mk (s.data.map (fun c => if c = ':' then '.' else c))

/-- The first token resolves through the struct-catalog path: the
alias lookup produced no class, the service index has no entry, and
the struct catalog has one. -/
def firstStructPath (env : Env) (v : String) : Bool :=
  ((CLASS_ALIASES v).bind (fun cn => env.Classes.find? (fun k => k.Name == cn))).isNone
    && (servicesGet env v).isNone
    && (env.ItemStruct.find? (fun t => t.name == v)).isSome

/-- Catalog snapshot of spec scenario 1: a "Lighting" service class
with property "Ambient" of DataType "Color3", and a "Color3" struct
with instance property "R" of type "number". -/
def envLighting : Env :=
  { Classes := [⟨"Lighting", [ApiMember.property "Ambient" ⟨"DataType", "Color3"⟩], some ["Service"]⟩],
    ItemStruct := [⟨"Color3", [⟨"R", "number", false⟩], []⟩] }

/-- Catalog snapshot with a service class "X" that has a Callback
member "cb" and a boolean property "P". -/
def envX : Env :=
  { Classes := [⟨"X", [ApiMember.callback "cb", ApiMember.property "P" ⟨"Primitive", "boolean"⟩], some ["Service"]⟩],
    ItemStruct := [] }

/-- The resolved element for the token "X" in `envX`. -/
def xElem : ValueType := ⟨"Class", "X", "X", false⟩

/-- The resolved element for the token "P" in `envX`. -/
def pElem : ValueType := ⟨"Primitive", "boolean", "P", false⟩

/-- Catalog snapshot of spec scenario 4: a class "Part" with boolean
property "Anchored", and a struct "Instance" with the static
constructor function "new" returning "Instance". -/
def envI : Env :=
  { Classes := [⟨"Part", [ApiMember.property "Anchored" ⟨"Primitive", "boolean"⟩], none⟩],
    ItemStruct := [⟨"Instance", [], [⟨"new", true, [⟨"Instance"⟩]⟩]⟩] }

/-- The "Instance" struct of `envI`. -/
def instStruct : ItemStruct := ⟨"Instance", [], [⟨"new", true, [⟨"Instance"⟩]⟩]⟩

/-- The "Part" class of `envI`. -/
def partClass : ApiClass := ⟨"Part", [ApiMember.property "Anchored" ⟨"Primitive", "boolean"⟩], none⟩

/-- The resolved element for the first token "Instance" in `envI`. -/
def instElem : ValueType := ⟨"DataType", "Instance", "Instance", true⟩

/-- Document text of spec scenario 4. -/
def docI : String := "local myPart = Instance.new(\"Part\")"

/-!
Helper lemmas. These are shared infrastructure: facts about the
splitter and about the shape of the per-token steps, and the four
inductive facts about the loop (totality under the push-invariant,
output growth bound, stability of stopped runs under extra tokens, and
the static flag of appended elements).
-/

theorem splitBy_ne_nil (p : Char → Bool) (l : List Char) : splitBy p l ≠ [] := by
  induction l with
  | nil => simp [splitBy]
  | cons c cs ih =>
    unfold splitBy
    split <;> simp_all

theorem splitBy_append_sep (p : Char → Bool) (c : Char) (hc : p c = true) (xs ys : List Char) :
    splitBy p (xs ++ c :: ys) = splitBy p xs ++ splitBy p ys := by
  induction xs with
  | nil => simp [splitBy, hc]
  | cons d ds ih =>
    have hne := splitBy_ne_nil p ds
    simp only [List.cons_append, splitBy, List.append_eq]
    cases hd : p d
    · cases hds : splitBy p ds with
      | nil => exact absurd hds hne
      | cons t ts => rw [ih, hds]; simp
    · rw [ih]
      cases hds : splitBy p ds <;> simp

theorem splitBy_isSep_map_dot (l : List Char) :
    splitBy isSep (l.map (fun c => if c = ':' then '.' else c)) = splitBy isSep l := by
  induction l with
  | nil => rfl
  | cons c cs ih =>
    simp only [List.map_cons, splitBy, ih]
    by_cases hc : c = ':'
    · subst hc
      simp [isSep]
    · simp only [if_neg hc]

theorem tokenize_append_dot (s t : String) :
    tokenize (s ++ "." ++ t) = tokenize s ++ tokenize t := by
  unfold tokenize
  rw [show (s ++ "." ++ t).data = s.data ++ '.' :: t.data by
        rw [String.data_append, String.data_append, List.append_assoc]; rfl,
      splitBy_append_sep isSep '.' (by decide), List.map_append]

theorem firstStep_ne_skip (env : Env) (v : String) (next : LastVar) :
    firstStep env v ≠ .skip next := by
  unfold firstStep
  repeat' split
  all_goals simp

theorem resolveTypeName_ne_skip (env : Env) (v tn : String) (next : LastVar) :
    resolveTypeName env v tn ≠ .skip next := by
  unfold resolveTypeName
  repeat' split
  all_goals simp

theorem structStep_ne_skip (env : Env) (s : ItemStruct) (prev : ValueType) (v : String)
    (next : LastVar) : structStep env s prev v ≠ .skip next := by
  unfold structStep
  repeat' split
  all_goals first
    | exact resolveTypeName_ne_skip env v _ next
    | simp

theorem classStep_skip_eq (env : Env) (c : ApiClass) (v : String) (next : LastVar)
    (h : classStep env c v = .skip next) : next = .cls c := by
  unfold classStep at h
  repeat' split at h
  all_goals first
    | (cases h; rfl)
    | cases h

theorem resolveTypeName_push_static (env : Env) (v tn : String) (x : ValueType)
    (n : Option LastVar) (h : resolveTypeName env v tn = .push x n) : x.Static = false := by
  unfold resolveTypeName at h
  repeat' split at h
  all_goals (cases h; rfl)

theorem classStep_push_static (env : Env) (c : ApiClass) (v : String) (x : ValueType)
    (n : Option LastVar) (h : classStep env c v = .push x n) : x.Static = false := by
  unfold classStep at h
  repeat' split at h
  all_goals first
    | (cases h; rfl)
    | cases h

theorem structStep_push_static (env : Env) (s : ItemStruct) (prev : ValueType) (v : String)
    (x : ValueType) (n : Option LastVar) (h : structStep env s prev v = .push x n) :
    x.Static = false := by
  unfold structStep at h
  repeat' split at h
  all_goals first
    | exact resolveTypeName_push_static env v _ x n h
    | cases h

theorem stepOf_eq_none (env : Env) (st : Option LastVar) (p : Option ValueType) (v : String)
    (h : stepOf env st p v = none) : (∃ s, st = some (.strct s)) ∧ p = none := by
  unfold stepOf at h
  repeat' split at h
  all_goals simp_all

theorem stepOf_skip_shape (env : Env) (st : Option LastVar) (p : Option ValueType) (v : String)
    (next : LastVar) (h : stepOf env st p v = some (.skip next)) : ∃ c, next = .cls c := by
  unfold stepOf at h
  repeat' split at h
  all_goals first
    | cases h
    | exact absurd (Option.some.inj h) (firstStep_ne_skip env v next)
    | exact ⟨_, classStep_skip_eq env _ v next (Option.some.inj h)⟩
    | exact absurd (Option.some.inj h) (structStep_ne_skip env _ _ v next)

theorem stepOf_push_static (env : Env) (lv : LastVar) (p : Option ValueType) (v : String)
    (x : ValueType) (n : Option LastVar)
    (h : stepOf env (some lv) p v = some (.push x n)) : x.Static = false := by
  unfold stepOf at h
  repeat' split at h
  all_goals try contradiction
  all_goals first
    | cases h
    | exact classStep_push_static env _ v x n (Option.some.inj h)
    | exact structStep_push_static env _ _ v x n (Option.some.inj h)

theorem inferLoop_isSome_of_inv (env : Env) (ts : List String) (st : Option LastVar)
    (out : List ValueType) (hinv : ∀ s, st = some (.strct s) → out ≠ []) :
    (inferLoop env ts st out).isSome = true := by
  induction ts generalizing st out with
  | nil => simp [inferLoop]
  | cons v rest ih =>
    simp only [inferLoop]
    cases hst : stepOf env st out.getLast? v with
    | none =>
      exfalso
      obtain ⟨⟨s, hs⟩, hp⟩ := stepOf_eq_none env st out.getLast? v hst
      exact hinv s hs (List.getLast?_eq_none_iff.mp hp)
    | some stp =>
      cases stp with
      | stop => simp
      | skip next =>
        obtain ⟨c, hc⟩ := stepOf_skip_shape env st out.getLast? v next hst
        subst hc
        exact ih (some (.cls c)) out (by intro s hs; simp at hs)
      | push x n =>
        cases n with
        | none => simp
        | some next => exact ih (some next) (out ++ [x]) (by intro s hs; simp)

theorem inferLoop_length_le (env : Env) (ts : List String) (st : Option LastVar)
    (out r : List ValueType) (b : Bool) (h : inferLoop env ts st out = some (r, b)) :
    r.length ≤ out.length + ts.length := by
  induction ts generalizing st out with
  | nil =>
    simp only [inferLoop] at h
    cases h
    simp
  | cons v rest ih =>
    simp only [inferLoop] at h
    cases hst : stepOf env st out.getLast? v <;> rw [hst] at h
    · cases h
    · rename_i stp
      cases stp with
      | stop =>
        cases h
        simp only [List.length_cons]
        omega
      | skip next =>
        have h2 := ih (some next) out h
        simp only [List.length_cons]
        omega
      | push x n =>
        cases n with
        | none =>
          cases h
          simp only [List.length_append, List.length_cons, List.length_nil]
          omega
        | some next =>
          have h2 := ih (some next) (out ++ [x]) h
          simp only [List.length_append, List.length_cons, List.length_nil] at h2 ⊢
          omega

theorem inferLoop_length_le_consumed (env : Env) (ts : List String) (st : Option LastVar)
    (out r : List ValueType) (b : Bool) (h : inferLoop env ts st out = some (r, b)) :
    ∃ n, consumedTokens env ts st out = some n
      ∧ r.length ≤ out.length + n ∧ n ≤ ts.length := by
  induction ts generalizing st out with
  | nil =>
    simp only [inferLoop] at h
    cases h
    exact ⟨0, rfl, by simp, by simp⟩
  | cons v rest ih =>
    simp only [inferLoop] at h
    simp only [consumedTokens]
    cases hst : stepOf env st out.getLast? v <;> rw [hst] at h
    · cases h
    · rename_i stp
      cases stp with
      | stop =>
        cases h
        exact ⟨1, rfl, by simp, by simp⟩
      | skip next =>
        obtain ⟨n, hc, hlen, hn⟩ := ih (some next) out h
        refine ⟨n + 1, ?_, ?_, ?_⟩
        · show (consumedTokens env rest (some next) out).map (· + 1) = some (n + 1)
          rw [hc]
          rfl
        · omega
        · simp only [List.length_cons]
          omega
      | push x n0 =>
        cases n0 with
        | none =>
          cases h
          refine ⟨1, rfl, ?_, by simp⟩
          simp only [List.length_append, List.length_cons, List.length_nil]
          omega
        | some next =>
          obtain ⟨n, hc, hlen, hn⟩ := ih (some next) (out ++ [x]) h
          refine ⟨n + 1, ?_, ?_, ?_⟩
          · show (consumedTokens env rest (some next) (out ++ [x])).map (· + 1) = some (n + 1)
            rw [hc]
            rfl
          · simp only [List.length_append, List.length_cons, List.length_nil] at hlen
            omega
          · simp only [List.length_cons]
            omega

theorem inferLoop_stop_extend (env : Env) (ts extra : List String) (st : Option LastVar)
    (out r : List ValueType) (h : inferLoop env ts st out = some (r, true)) :
    inferLoop env (ts ++ extra) st out = some (r, true) := by
  induction ts generalizing st out with
  | nil =>
    simp only [inferLoop] at h
    simp at h
  | cons v rest ih =>
    simp only [List.cons_append, inferLoop] at h ⊢
    cases hst : stepOf env st out.getLast? v <;> rw [hst] at h
    · cases h
    · rename_i stp
      cases stp with
      | stop => exact h
      | skip next => exact ih (some next) out h
      | push x n =>
        cases n with
        | none => exact h
        | some next => exact ih (some next) (out ++ [x]) h

theorem inferLoop_append_suffix (env : Env) (ts : List String) (lv : LastVar)
    (out r : List ValueType) (b : Bool)
    (h : inferLoop env ts (some lv) out = some (r, b)) :
    ∃ sfx, r = out ++ sfx ∧ ∀ x ∈ sfx, x.Static = false := by
  induction ts generalizing lv out with
  | nil =>
    simp only [inferLoop] at h
    cases h
    exact ⟨[], by simp⟩
  | cons v rest ih =>
    simp only [inferLoop] at h
    cases hst : stepOf env (some lv) out.getLast? v <;> rw [hst] at h
    · cases h
    · rename_i stp
      cases stp with
      | stop =>
        cases h
        exact ⟨[], by simp⟩
      | skip next => exact ih next out h
      | push x n =>
        have hx := stepOf_push_static env lv out.getLast? v x n hst
        cases n with
        | none =>
          cases h
          exact ⟨[x], by simp [hx]⟩
        | some next =>
          obtain ⟨sfx, hr, hall⟩ := ih next (out ++ [x]) h
          refine ⟨x :: sfx, by simp [hr], ?_⟩
          intro y hy
          rcases List.mem_cons.mp hy with hy | hy
          · subst hy
            exact hx
          · exact hall y hy

/-!
Claim theorems.
-/

/-- Claim C6: on the scenario-1 catalogs (service class "Lighting" with
property "Ambient" of DataType "Color3"; struct "Color3" with instance
property "R" of type "number"), `inferType` on "Lighting.Ambient.R" returns
exactly the three elements Class "Lighting", DataType "Color3", Primitive
"number". -/
theorem lighting_chain_scenario :
    inferType envLighting "Lighting.Ambient.R" =
      some [⟨"Class", "Lighting", "Lighting", false⟩,
            ⟨"DataType", "Color3", "Ambient", false⟩,
            ⟨"Primitive", "number", "R", false⟩] := by
  rfl

/-- Claim C7: `inferType` never raises an error for partial or failed
inference - every lookup failure only stops the loop, and the result is
always a defined (possibly empty) sequence. -/
theorem inferType_never_errors (env : Env) (code : String) :
    (inferType env code).isSome = true := by
  have h := inferLoop_isSome_of_inv env (tokenize code) none [] (by intro s hs; simp at hs)
  unfold inferType
  cases hl : inferLoop env (tokenize code) none [] with
  | none => rw [hl] at h; simp at h
  | some p => simp

/-- Claim C9: whenever the loop begins a token with a struct entity as the
current state, the accumulated output is non-empty (a struct only becomes
current immediately after a push); under that invariant the read of the last
output element's Static flag never touches an empty sequence and the loop
always produces a defined result. -/
theorem struct_entry_output_nonempty (env : Env) (ts : List String) (st : Option LastVar)
    (out : List ValueType) (hinv : ∀ s, st = some (.strct s) → out ≠ []) :
    (inferLoop env ts st out).isSome = true :=
  inferLoop_isSome_of_inv env ts st out hinv

/-- Witness for C9: the invariant holds at a concrete struct state reached
after the "Ambient" push, and the loop result there is defined. -/
theorem struct_entry_output_nonempty_witness :
    (∀ s, (some (LastVar.strct ⟨"Color3", [⟨"R", "number", false⟩], []⟩) : Option LastVar) =
        some (.strct s) → ([⟨"DataType", "Color3", "Ambient", false⟩] : List ValueType) ≠ []) ∧
    (inferLoop envLighting ["R"] (some (.strct ⟨"Color3", [⟨"R", "number", false⟩], []⟩))
        [⟨"DataType", "Color3", "Ambient", false⟩]).isSome = true :=
  ⟨by intro s hs; simp,
   struct_entry_output_nonempty envLighting ["R"] _ _ (by intro s hs; simp)⟩

/-- Claim C3 counterexample: on `envX` the chain "X.cb.cb" consumes all three
tokens (the loop ends by exhaustion, flag `false`, never breaking) yet the
output holds one element, not three - a token matching a Callback member is
consumed without an append. -/
theorem output_per_token_cex :
    inferLoop envX (tokenize "X.cb.cb") none [] = some ([⟨"Class", "X", "X", false⟩], false)
    ∧ (tokenize "X.cb.cb").length = 3
    ∧ ¬ ([(⟨"Class", "X", "X", false⟩ : ValueType)] : List ValueType).length = 3 :=
  ⟨by rfl, by rfl, by decide⟩

/-- Claim C3 amended: at most one ResolvedType element is appended per
consumed token - a token matching a Callback member (and a final failing
token) is consumed without an append - so the output length is bounded by
the number of tokens the loop consumed before terminating (itself at most
the chain's token count), not equal to it. -/
theorem output_length_le_consumed (env : Env) (code : String) (out : List ValueType)
    (h : inferType env code = some out) :
    ∃ n, consumedTokens env (tokenize code) none [] = some n
      ∧ out.length ≤ n ∧ n ≤ (tokenize code).length := by
  unfold inferType at h
  cases hl : inferLoop env (tokenize code) none [] with
  | none => rw [hl] at h; cases h
  | some p =>
    rw [hl] at h
    obtain ⟨r, b⟩ := p
    simp only [Option.map_some', Option.some.injEq] at h
    subst h
    obtain ⟨n, hc, hlen, hn⟩ := inferLoop_length_le_consumed env (tokenize code) none [] r b hl
    exact ⟨n, hc, by simpa using hlen, hn⟩

/-- Witness for the amended C3 at the Callback chain: the loop consumes all
three tokens yet outputs a single element. -/
theorem output_length_le_consumed_witness :
    inferType envX "X.cb.cb" = some [⟨"Class", "X", "X", false⟩] ∧
    (∃ n, consumedTokens envX (tokenize "X.cb.cb") none [] = some n
      ∧ ([(⟨"Class", "X", "X", false⟩ : ValueType)] : List ValueType).length ≤ n
      ∧ n ≤ (tokenize "X.cb.cb").length) :=
  ⟨by rfl, output_length_le_consumed envX "X.cb.cb" _ (by rfl)⟩

/-- Claim C4 counterexample: the tokenizer does not preserve which separator
preceded each token - a dot chain and a colon chain differing only in the
separator tokenize to the identical sequence, so the separator kind cannot be
recovered from the tokenizer's output. -/
theorem tokenize_separator_cex :
    tokenize "a.b" = tokenize "a:b" ∧ ("a.b" : String) ≠ "a:b" :=
  ⟨by rfl, by decide⟩

/-- Claim C4 amended: the tokenizer splits the chain on `.` and `:` into an
ordered token sequence (a dot separator splits a chain into the token
sequences of its two sides), but separator identity is discarded: replacing
every `:` by `.` leaves the output unchanged. -/
theorem tokenize_separator_insensitive (code s t : String) :
    tokenize (dotify code) = tokenize code
    ∧ tokenize (s ++ "." ++ t) = tokenize s ++ tokenize t := by
  constructor
  · unfold tokenize dotify
    exact congrArg (List.map String.mk) (splitBy_isSep_map_dot code.data)
  · exact tokenize_append_dot s t

/-- Claim C5 counterexample: over `envX` the chain "X.cb" already returns a
single element (k = 1 < 2), yet "X.cb.P" returns that element and one more -
after a Callback token the engine recovers, so a short prefix result does not
freeze the extension's result. -/
theorem truncation_recovery_cex :
    inferType envX "X.cb" = some [⟨"Class", "X", "X", false⟩]
    ∧ ([(⟨"Class", "X", "X", false⟩ : ValueType)] : List ValueType).length < 2
    ∧ inferType envX "X.cb.P" =
        some [⟨"Class", "X", "X", false⟩, ⟨"Primitive", "boolean", "P", false⟩] :=
  ⟨by rfl, by decide, by rfl⟩

/-- Claim C5 amended: if resolving `A.B` stops through a failed lookup (an
actual break, recorded by the `true` flag) with fewer than two elements, then
resolving `A.B.C` returns exactly the same sequence and nothing beyond it;
only a short result reached by consuming every token (Callback skipping) can
still grow. -/
theorem stop_truncation_monotone (env : Env) (s t : String) (r : List ValueType)
    (h : inferLoop env (tokenize s) none [] = some (r, true)) (_hk : r.length < 2) :
    inferType env (s ++ "." ++ t) = some r := by
  unfold inferType
  rw [tokenize_append_dot, inferLoop_stop_extend env (tokenize s) (tokenize t) none [] r h]
  rfl

/-- Witness for the amended C5: "X.nope" stops by a break with one element,
and "X.nope.P" returns the identical sequence. -/
theorem stop_truncation_monotone_witness :
    inferLoop envX (tokenize "X.nope") none [] = some ([⟨"Class", "X", "X", false⟩], true)
    ∧ ([(⟨"Class", "X", "X", false⟩ : ValueType)] : List ValueType).length < 2
    ∧ inferType envX ("X.nope" ++ "." ++ "P") = some [⟨"Class", "X", "X", false⟩] :=
  ⟨by rfl, by decide, stop_truncation_monotone envX "X.nope" "P" _ (by rfl) (by decide)⟩

/-- Claim C8: when the current entity is a class and the token's bare
identifier matches a Callback member, the loop appends nothing, does not
terminate, and keeps the same class as the lookup target for the next
token. -/
theorem callback_token_skipped (env : Env) (c : ApiClass) (v nm cb : String)
    (rest : List String) (out : List ValueType)
    (h1 : firstWordRun v = some nm)
    (h2 : c.Members.find? (fun m => m.Name == nm) = some (.callback cb)) :
    inferLoop env (v :: rest) (some (.cls c)) out
      = inferLoop env rest (some (.cls c)) out := by
  have hc : classStep env c v = .skip (.cls c) := by
    unfold classStep
    simp only [h1, h2]
  simp only [inferLoop, stepOf, hc]

/-- Witness for C8: the Callback member "cb" of the class "X" is skipped and
the class stays the lookup target. -/
theorem callback_token_skipped_witness :
    firstWordRun "cb" = some "cb"
    ∧ (⟨"X", [ApiMember.callback "cb", ApiMember.property "P" ⟨"Primitive", "boolean"⟩],
        some ["Service"]⟩ : ApiClass).Members.find? (fun m => m.Name == "cb")
        = some (.callback "cb")
    ∧ inferLoop envX ["cb", "P"]
        (some (.cls ⟨"X", [ApiMember.callback "cb", ApiMember.property "P" ⟨"Primitive", "boolean"⟩],
          some ["Service"]⟩)) [xElem]
      = inferLoop envX ["P"]
        (some (.cls ⟨"X", [ApiMember.callback "cb", ApiMember.property "P" ⟨"Primitive", "boolean"⟩],
          some ["Service"]⟩)) [xElem] :=
  ⟨rfl, rfl,
   callback_token_skipped envX
     ⟨"X", [ApiMember.callback "cb", ApiMember.property "P" ⟨"Primitive", "boolean"⟩],
       some ["Service"]⟩ "cb" "cb" "cb" ["P"] [xElem] rfl rfl⟩

/-- Claim C10: only the first-token struct-catalog match pushes an element
with Static = true - every element after the first has Static = false, and
the first element has Static = true exactly when the first token failed the
alias and service lookups and matched the struct catalog. -/
theorem static_true_only_first_struct (env : Env) (code v : String) (rest : List String)
    (out : List ValueType)
    (htok : tokenize code = v :: rest)
    (h : inferType env code = some out) :
    (∀ x ∈ out.tail, x.Static = false) ∧
    (∀ x, out.head? = some x → (x.Static = true ↔ firstStructPath env v = true)) := by
  unfold inferType at h
  rw [htok] at h
  obtain ⟨⟨r, b⟩, hl, hfst⟩ := Option.map_eq_some'.mp h
  simp only at hfst
  rw [hfst] at hl
  simp only [inferLoop, stepOf] at hl
  unfold firstStep at hl
  cases halias : (CLASS_ALIASES v).bind (fun cn => env.Classes.find? (fun k => k.Name == cn)) with
  | some k =>
    rw [halias] at hl
    obtain ⟨sfx, hrr, hall⟩ :=
      inferLoop_append_suffix env rest (.cls k) [⟨"Class", k.Name, v, false⟩] out b hl
    subst hrr
    constructor
    · intro x hx
      exact hall x (by simpa using hx)
    · intro x hxh
      have hx : x = ⟨"Class", k.Name, v, false⟩ := by simpa using hxh.symm
      subst hx
      simp [firstStructPath, halias]
  | none =>
    rw [halias] at hl
    cases hserv : servicesGet env v with
    | some sv =>
      rw [hserv] at hl
      obtain ⟨sfx, hrr, hall⟩ :=
        inferLoop_append_suffix env rest (.cls sv) [⟨"Class", sv.Name, v, false⟩] out b hl
      subst hrr
      constructor
      · intro x hx
        exact hall x (by simpa using hx)
      · intro x hxh
        have hx : x = ⟨"Class", sv.Name, v, false⟩ := by simpa using hxh.symm
        subst hx
        simp [firstStructPath, halias, hserv]
    | none =>
      rw [hserv] at hl
      cases hstr : env.ItemStruct.find? (fun t => t.name == v) with
      | some st =>
        rw [hstr] at hl
        obtain ⟨sfx, hrr, hall⟩ :=
          inferLoop_append_suffix env rest (.strct st) [⟨"DataType", st.name, v, true⟩] out b hl
        subst hrr
        constructor
        · intro x hx
          exact hall x (by simpa using hx)
        · intro x hxh
          have hx : x = ⟨"DataType", st.name, v, true⟩ := by simpa using hxh.symm
          subst hx
          simp [firstStructPath, halias, hserv, hstr]
      | none =>
        rw [hstr] at hl
        have hout : out = [] := by
          simpa using congrArg (Option.map Prod.fst) hl.symm
        subst hout
        constructor
        · intro x hx
          simp at hx
        · intro x hxh
          simp at hxh

/-- Witness for C10 at the chain "Instance" over `envI`: the single pushed
element carries Static = true and the struct-path condition holds. -/
theorem static_true_only_first_struct_witness :
    tokenize "Instance" = "Instance" :: []
    ∧ inferType envI "Instance" = some [⟨"DataType", "Instance", "Instance", true⟩]
    ∧ ((∀ x ∈ ([⟨"DataType", "Instance", "Instance", true⟩] : List ValueType).tail,
          x.Static = false) ∧
       (∀ x, ([⟨"DataType", "Instance", "Instance", true⟩] : List ValueType).head? = some x →
          (x.Static = true ↔ firstStructPath envI "Instance" = true))) :=
  ⟨rfl, by rfl,
   static_true_only_first_struct envI "Instance" "Instance" [] _ rfl (by rfl)⟩

/-- Claim C1 (spec-modelled - the Assignment Scanner source is absent from
src/): when the first token fails the alias, service and struct lookups, the
current resolver scans the document text for the last `local <name> = <rhs>`
line for that exact identifier, recursively invokes the resolver on the
right-hand side, pushes the last element of the recursive result as the first
element of the outer output and continues with the remaining tokens; if no
line matches or the recursion yields nothing, the result is the empty
sequence. -/
theorem inferFull_assignment_scan (env : Env) (doc : String) (fuel : Nat) (code v : String)
    (rest : List String)
    (htok : tokenize code = v :: rest)
    (h1 : (CLASS_ALIASES v).bind (fun cn => env.Classes.find? (fun k => k.Name == cn)) = none)
    (h2 : servicesGet env v = none)
    (h3 : env.ItemStruct.find? (fun t => t.name == v) = none) :
    inferFull env doc (fuel + 1) code =
      match lastLocalAssignment doc v with
      | none => some ([], true)
      | some rhs =>
        match inferFull env doc fuel rhs with
        | none => none
        | some (types, _) =>
          match types.getLast? with
          | none => some ([], true)
          | some t =>
            match resolveCategory env ⟨t.Category, t.Name⟩ with
            | some next => inferFullLoop env doc (inferFull env doc fuel) rest (some next) [t]
            | none => some ([t], true) := by
  have hfs : firstStep env v = .stop := by
    unfold firstStep
    simp only [h1, h2, h3]
  simp only [inferFull, htok, inferFullLoop, stepOfFull, hfs, List.nil_append]

/-- Witness for C1: spec scenario 4 - "myPart" is nowhere in the catalogs,
the document holds `local myPart = Instance.new("Part")`, and the chain
"myPart.Anchored" resolves to Class "Part" followed by Primitive "boolean". -/
theorem inferFull_assignment_scan_witness :
    tokenize "myPart.Anchored" = "myPart" :: ["Anchored"]
    ∧ inferFull envI docI 2 "myPart.Anchored" =
        some ([⟨"Class", "Part", "new(\"Part\")", false⟩,
               ⟨"Primitive", "boolean", "Anchored", false⟩], true) :=
  ⟨rfl,
   (inferFull_assignment_scan envI docI 1 "myPart.Anchored" "myPart" ["Anchored"]
      rfl rfl rfl rfl).trans (by rfl)⟩

/-- Claim C2 (spec-modelled - the Instance.new rule's source is absent from
src/): when the current entity is the struct named "Instance" and the token
is a call of its function "new" whose quoted call-argument literal names a
class present in the class catalog, the resolver pushes that Class for the
token and continues the chain with that class as the lookup target, for every
declared return type of the function. -/
theorem instance_new_direct_class (env : Env) (doc : String)
    (recurse : String → Option (List ValueType × Bool))
    (s : ItemStruct) (prev : ValueType) (v cn : String) (f : StructFunction)
    (ci : ApiClass) (rest : List String) (out : List ValueType)
    (hs : s.name = "Instance")
    (hprop : s.properties.find? (fun p => p.name == v && p.static == prev.Static) = none)
    (hw : firstWordRun v = some "new")
    (hf : s.functions.find? (fun g => g.name == "new" && g.static == prev.Static) = some f)
    (hq : quotedArg v = some cn)
    (hc : env.Classes.find? (fun k => k.Name == cn) = some ci)
    (hlast : out.getLast? = some prev) :
    inferFullLoop env doc recurse (v :: rest) (some (.strct s)) out
      = inferFullLoop env doc recurse rest (some (.cls ci))
          (out ++ [⟨"Class", ci.Name, v, false⟩]) := by
  have hstep : structStepFull env s prev v
      = .push ⟨"Class", ci.Name, v, false⟩ (some (.cls ci)) := by
    unfold structStepFull
    simp only [hprop, hw, hf, hs, hq, hc]
    simp [hc]
  simp only [inferFullLoop, stepOfFull, hlast, hstep]

/-- Witness for C2: over `envI`, the token `new("Part")` on the struct
"Instance" resolves directly to the class "Part". -/
theorem instance_new_direct_class_witness :
    inferFullLoop envI docI (inferFull envI docI 0) ["new(\"Part\")"]
        (some (.strct instStruct)) [instElem]
      = inferFullLoop envI docI (inferFull envI docI 0) [] (some (.cls partClass))
          ([instElem] ++ [⟨"Class", "Part", "new(\"Part\")", false⟩]) :=
  instance_new_direct_class envI docI (inferFull envI docI 0) instStruct instElem
    "new(\"Part\")" "Part" ⟨"new", true, [⟨"Instance"⟩]⟩ partClass [] [instElem]
    rfl rfl rfl rfl rfl rfl rfl
